import Mathlib

set_option maxHeartbeats 1000000

/-!
Verification development for the libopenapi core: a shallow embedding of the
document-construction pipeline (`createDocument`), the node builder that
renders high-level objects back to YAML, the parallel translate utility, and
the path utilities, together with theorems settling the specified properties.

Strings are modelled as `List Char` (Go strings are byte sequences; all inputs
of interest here are plain character data). Machine integers do not overflow in
any of the embedded code paths, so `Nat`/`Int` are used directly.
-/

namespace LibOpenAPI

/- ## Path utilities (utils package, part_000) -/

/-- Embedding of `strings.ReplaceAll(path, BSLASH, SLASH)` as used by
`ReplaceWindowsDriveWithLinuxPath`: every backslash character is replaced by a
forward slash, character for character. -/
def replaceAllBackslash (p : List Char) : List Char :=
  p.map (fun c => if c = '\\' then '/' else c)

/-- Embedding of `utils.ReplaceWindowsDriveWithLinuxPath`:
if `len(path) > 1 && path[1] == ':'` the backslashes are replaced and the first
two characters are dropped; otherwise only the replacement happens. -/
def ReplaceWindowsDriveWithLinuxPath (p : List Char) : List Char :=
  match p with
  | c0 :: c1 :: rest =>
    if c1 = ':' then (replaceAllBackslash (c0 :: c1 :: rest)).drop 2
    else replaceAllBackslash (c0 :: c1 :: rest)
  | _ => replaceAllBackslash p

theorem replaceAllBackslash_not_mem (p : List Char) :
    '\\' ∉ replaceAllBackslash p := by
  intro h
  rw [replaceAllBackslash, List.mem_map] at h
  obtain ⟨a, _, ha⟩ := h
  by_cases hb : a = '\\' <;> simp [hb] at ha

/-- C8: `ReplaceWindowsDriveWithLinuxPath` never emits a backslash, and when
the second character of the path is a colon it strips the two-character drive
prefix, returning the slash-normalised remainder. -/
theorem c8_replace_windows_drive (p : List Char) :
    ('\\' ∉ ReplaceWindowsDriveWithLinuxPath p) ∧
    (∀ c0 rest, p = c0 :: ':' :: rest →
      ReplaceWindowsDriveWithLinuxPath p = replaceAllBackslash rest) := by
  constructor
  · match p with
    | [] => exact replaceAllBackslash_not_mem []
    | [c] => exact replaceAllBackslash_not_mem [c]
    | c0 :: c1 :: rest =>
      by_cases hc : c1 = ':'
      · subst hc
        intro h
        rw [ReplaceWindowsDriveWithLinuxPath, if_pos rfl] at h
        exact replaceAllBackslash_not_mem _ (List.mem_of_mem_drop h)
      · intro h
        rw [ReplaceWindowsDriveWithLinuxPath, if_neg hc] at h
        exact replaceAllBackslash_not_mem _ h
  · intro c0 rest hp
    subst hp
    simp [ReplaceWindowsDriveWithLinuxPath, replaceAllBackslash]

/-- Witness for C8 at the concrete input of the claim:
the absolute Windows path with a drive letter becomes a rooted POSIX path. -/
theorem c8_replace_windows_drive_witness :
    ReplaceWindowsDriveWithLinuxPath ['C', ':', '\\', 'f', 'o', 'o'] =
      ['/', 'f', 'o', 'o'] ∧
    '\\' ∉ ReplaceWindowsDriveWithLinuxPath ['C', ':', '\\', 'f', 'o', 'o'] := by
  have h := c8_replace_windows_drive ['C', ':', '\\', 'f', 'o', 'o']
  refine ⟨?_, h.1⟩
  have h2 := h.2 'C' ['\\', 'f', 'o', 'o'] rfl
  rw [h2]
  decide

/- ## CheckPathOverlap and Go string splitting (utils package, part_000) -/

/-- Boolean test that `l` is a leading segment of `s`; used to locate
occurrences of the separator, mirroring Go `strings.Index` matching. -/
def leadsList : List Char → List Char → Bool
  | [], _ => true
  | _ :: _, [] => false
  | a :: as, b :: bs => a == b && leadsList as bs

/-- Position of the first occurrence of `sep` inside `s` (Go `strings.Index`),
or `none` when `sep` does not occur. -/
def findSubIdx (sep : List Char) : List Char → Option Nat
  | [] => if leadsList sep [] then some 0 else none
  | c :: cs =>
    if leadsList sep (c :: cs) then some 0
    else (findSubIdx sep cs).map (· + 1)

/-- Fuel-driven worker for Go `strings.Split` with a non-empty separator:
repeatedly cut at the first occurrence of `sep`. `s.length` fuel always
suffices because every cut consumes at least one character. -/
def splitGoFuel (sep : List Char) : Nat → List Char → List (List Char)
  | 0, s => [s]
  | Nat.succ fuel, s =>
    match findSubIdx sep s with
    | none => [s]
    | some i => s.take i :: splitGoFuel sep fuel (s.drop (i + sep.length))

/-- Embedding of Go `strings.Split`: the empty separator explodes the string
into one-character segments (the empty list on the empty string); a non-empty
separator cuts at each occurrence. -/
def splitGo (sep s : List Char) : List (List Char) :=
  if sep = [] then s.map (fun c => [c])
  else splitGoFuel sep s.length s

/-- Embedding of Go `strings.Join`. -/
def joinGo (sep : List Char) : List (List Char) → List Char
  | [] => []
  | [a] => a
  | a :: b :: rest => a ++ sep ++ joinGo sep (b :: rest)

/-- Embedding of `utils.CheckPathOverlap`. The Go code indexes `a[len(a)-1]`
and `b[0]` without guards; when either split is empty (exactly when the
separator and the corresponding path are both empty) Go panics with an
index-out-of-range runtime error, modelled here as `none`. -/
def CheckPathOverlap (pathA pathB sep : List Char) : Option (List Char) :=
  let a := splitGo sep pathA
  let b := splitGo sep pathB
  match a.getLast?, b.head? with
  | some la, some hb =>
    if la = hb then some (joinGo sep (a ++ b.tail))
    else some (joinGo sep (a ++ b))
  | _, _ => none

theorem leadsList_iff (l : List Char) : ∀ s, leadsList l s = true ↔ ∃ t, s = l ++ t := by
  induction l with
  | nil => intro s; simp [leadsList]
  | cons a as ih =>
    intro s
    cases s with
    | nil => simp [leadsList]
    | cons b bs =>
      rw [leadsList, Bool.and_eq_true, beq_iff_eq, ih bs]
      constructor
      · rintro ⟨rfl, t, rfl⟩
        exact ⟨t, rfl⟩
      · rintro ⟨t, ht⟩
        injection ht with h1 h2
        exact ⟨h1.symm, t, h2⟩

theorem findSubIdx_nil_none (sep : List Char) (hsep : sep ≠ []) :
    findSubIdx sep [] = none := by
  cases sep with
  | nil => exact absurd rfl hsep
  | cons a as => rfl

theorem findSubIdx_some (sep : List Char) :
    ∀ s i, findSubIdx sep s = some i → ∃ t, s.drop i = sep ++ t := by
  intro s
  induction s with
  | nil =>
    intro i h
    rw [findSubIdx] at h
    by_cases hl : leadsList sep [] = true
    · rw [if_pos hl] at h
      injection h with h'
      obtain ⟨t, ht⟩ := (leadsList_iff sep []).mp hl
      exact ⟨t, by rw [← h']; simpa using ht⟩
    · rw [if_neg hl] at h
      cases h
  | cons c cs ih =>
    intro i h
    rw [findSubIdx] at h
    by_cases hl : leadsList sep (c :: cs) = true
    · rw [if_pos hl] at h
      injection h with h'
      obtain ⟨t, ht⟩ := (leadsList_iff sep (c :: cs)).mp hl
      exact ⟨t, by rw [← h']; simpa using ht⟩
    · rw [if_neg hl, Option.map_eq_some'] at h
      obtain ⟨j, hj, rfl⟩ := h
      obtain ⟨t, ht⟩ := ih j hj
      exact ⟨t, by simpa using ht⟩

theorem joinGo_cons (sep x : List Char) (l : List (List Char)) (hl : l ≠ []) :
    joinGo sep (x :: l) = x ++ sep ++ joinGo sep l := by
  cases l with
  | nil => exact absurd rfl hl
  | cons y ys => rfl

theorem splitGoFuel_ne_nil (sep : List Char) :
    ∀ fuel s, splitGoFuel sep fuel s ≠ [] := by
  intro fuel
  cases fuel with
  | zero => intro s; simp [splitGoFuel]
  | succ n =>
    intro s
    rw [splitGoFuel]
    cases findSubIdx sep s <;> simp

theorem splitGo_ne_nil (sep s : List Char) (h : sep ≠ [] ∨ s ≠ []) :
    splitGo sep s ≠ [] := by
  rw [splitGo]
  by_cases hsep : sep = []
  · rw [if_pos hsep]
    rcases h with h1 | h2
    · exact absurd hsep h1
    · simpa using h2
  · rw [if_neg hsep]
    exact splitGoFuel_ne_nil sep s.length s

theorem joinGo_splitGoFuel (sep : List Char) (hsep : sep ≠ []) :
    ∀ fuel s, s.length ≤ fuel → joinGo sep (splitGoFuel sep fuel s) = s := by
  intro fuel
  induction fuel with
  | zero =>
    intro s hs
    have : s = [] := List.eq_nil_of_length_eq_zero (Nat.le_zero.mp hs)
    subst this
    rfl
  | succ n ih =>
    intro s hs
    rw [splitGoFuel]
    cases hfind : findSubIdx sep s with
    | none => rfl
    | some i =>
      have hs0 : s ≠ [] := by
        intro he
        subst he
        rw [findSubIdx_nil_none sep hsep] at hfind
        cases hfind
      have hseplen : 0 < sep.length := List.length_pos.mpr hsep
      have hslen : 0 < s.length := List.length_pos.mpr hs0
      have hdrop : (s.drop (i + sep.length)).length ≤ n := by
        rw [List.length_drop]
        omega
      rw [joinGo_cons sep (s.take i) _ (splitGoFuel_ne_nil sep n _), ih _ hdrop]
      obtain ⟨t, ht⟩ := findSubIdx_some sep s i hfind
      have h1 : s.drop (i + sep.length) = t := by
        rw [← List.drop_drop, ht, List.drop_left]
      calc s.take i ++ sep ++ s.drop (i + sep.length)
          = s.take i ++ (sep ++ t) := by rw [h1, List.append_assoc]
        _ = s.take i ++ s.drop i := by rw [ht]
        _ = s := List.take_append_drop i s

theorem joinGo_explode : ∀ s : List Char, joinGo [] (s.map (fun c => [c])) = s := by
  intro s
  induction s with
  | nil => rfl
  | cons c cs ih =>
    cases cs with
    | nil => rfl
    | cons d ds =>
      have hne : ((d :: ds).map (fun c => [c]) : List (List Char)) ≠ [] := by simp
      rw [List.map_cons, joinGo_cons [] [c] _ hne]
      simpa using ih

theorem joinGo_splitGo (sep s : List Char) : joinGo sep (splitGo sep s) = s := by
  rw [splitGo]
  by_cases hsep : sep = []
  · rw [if_pos hsep, hsep]
    exact joinGo_explode s
  · rw [if_neg hsep]
    exact joinGo_splitGoFuel sep hsep s.length s (Nat.le_refl _)

theorem joinGo_append (sep : List Char) :
    ∀ a b : List (List Char), a ≠ [] → b ≠ [] →
      joinGo sep (a ++ b) = joinGo sep a ++ sep ++ joinGo sep b := by
  intro a
  induction a with
  | nil => intro b ha _; exact absurd rfl ha
  | cons x xs ih =>
    intro b _ hb
    cases xs with
    | nil =>
      rw [List.cons_append, List.nil_append, joinGo_cons sep x b hb]
      rfl
    | cons y ys =>
      have hxs : (y :: ys : List (List Char)) ≠ [] := by simp
      have hxsb : ((y :: ys : List (List Char)) ++ b) ≠ [] := by simp
      rw [List.cons_append, joinGo_cons sep x _ hxsb, ih b hxs hb,
        joinGo_cons sep x _ hxs]
      simp [List.append_assoc]

/-- C10 counterexample: with an empty separator and an empty path, Go's
`strings.Split` returns an empty slice and `CheckPathOverlap` indexes
`a[len(a)-1]` (resp. `b[0]`) out of range, panicking instead of returning the
joined segments the claim promises for every input. -/
theorem c10_counterexample :
    CheckPathOverlap [] ['x'] [] = none ∧ CheckPathOverlap ['x'] [] [] = none := by
  constructor <;> rfl

/-- C10 (amended): whenever the separator is non-empty, or both paths are
non-empty, `CheckPathOverlap` returns the segments of `pathA` followed by the
segments of `pathB` joined by `sep`; when the last segment of `pathA` differs
from the first segment of `pathB` the result is `pathA ++ sep ++ pathB`, and
when they coincide the duplicated segment appears only once. When the
separator and either path are both empty the Go code panics (no result). -/
theorem c10_check_path_overlap (pathA pathB sep : List Char)
    (h : sep ≠ [] ∨ (pathA ≠ [] ∧ pathB ≠ [])) :
    ∃ r, CheckPathOverlap pathA pathB sep = some r ∧
      (∀ la hb, (splitGo sep pathA).getLast? = some la →
        (splitGo sep pathB).head? = some hb → la ≠ hb →
        r = pathA ++ sep ++ pathB) ∧
      (∀ la, (splitGo sep pathA).getLast? = some la →
        (splitGo sep pathB).head? = some la →
        ((splitGo sep pathB).tail ≠ [] →
          r = pathA ++ sep ++ joinGo sep (splitGo sep pathB).tail) ∧
        ((splitGo sep pathB).tail = [] → r = pathA)) := by
  have ha : splitGo sep pathA ≠ [] := by
    rcases h with h1 | h2
    · exact splitGo_ne_nil sep pathA (Or.inl h1)
    · exact splitGo_ne_nil sep pathA (Or.inr h2.1)
  have hb : splitGo sep pathB ≠ [] := by
    rcases h with h1 | h2
    · exact splitGo_ne_nil sep pathB (Or.inl h1)
    · exact splitGo_ne_nil sep pathB (Or.inr h2.2)
  obtain ⟨la, hla⟩ := Option.isSome_iff_exists.mp (List.getLast?_isSome.mpr ha)
  obtain ⟨hbv, hhb⟩ : ∃ v, (splitGo sep pathB).head? = some v := by
    cases hB : splitGo sep pathB with
    | nil => exact absurd hB hb
    | cons x xs => exact ⟨x, rfl⟩
  rw [CheckPathOverlap]
  simp only [hla, hhb]
  by_cases heq : la = hbv
  · rw [if_pos heq]
    refine ⟨_, rfl, ?_, ?_⟩
    · intro la' hb' hla' hhb' hne
      injection hla' with e1
      injection hhb' with e2
      exact absurd (e1.symm.trans (heq.trans e2)) hne
    · intro la' hla' hhb'
      constructor
      · intro htail
        rw [joinGo_append sep _ _ ha htail, joinGo_splitGo]
      · intro htail
        rw [htail, List.append_nil, joinGo_splitGo]
  · rw [if_neg heq]
    refine ⟨_, rfl, ?_, ?_⟩
    · intro la' hb' _ _ _
      rw [joinGo_append sep _ _ ha hb, joinGo_splitGo, joinGo_splitGo]
    · intro la' hla' hhb'
      injection hla' with e1
      injection hhb' with e2
      exact absurd (e1.trans e2.symm) heq

/-- Witness for C10 at concrete inputs: an overlapping pair dedupes the shared
segment, and a non-overlapping pair concatenates with the separator. -/
theorem c10_check_path_overlap_witness :
    CheckPathOverlap ['a', '/', 'b'] ['b', '/', 'c'] ['/'] =
      some ['a', '/', 'b', '/', 'c'] ∧
    CheckPathOverlap ['a'] ['b'] ['/'] = some ['a', '/', 'b'] := by
  constructor
  · obtain ⟨r, hr, _, hover⟩ :=
      c10_check_path_overlap ['a', '/', 'b'] ['b', '/', 'c'] ['/']
        (Or.inl (by decide))
    have h1 := (hover ['b'] (by decide) (by decide)).1 (by decide)
    rw [hr, h1]
    decide
  · obtain ⟨r, hr, hdiff, _⟩ :=
      c10_check_path_overlap ['a'] ['b'] ['/'] (Or.inl (by decide))
    have h1 := hdiff ['a'] ['b'] (by decide) (by decide) (by decide)
    rw [hr, h1]
    rfl

/- ## Parallel translate utility (datamodel package) -/

/-- Modelled from the spec: the implementation of `TranslateSliceParallel`
(datamodel/translate.go) is not under src/, only its test is. Per §4.8 the
translate function returns a value, the Continue sentinel, the EndOfInput
sentinel, or an error. -/
inductive TranslateRes (U E : Type) where
  | value (u : U)
  | cont
  | eof
  | err (e : E)

/-- Modelled from the spec: result of the consume function per §4.8 (Ok,
EndOfInput, or an error). -/
inductive ConsumeRes (E : Type) where
  | ok
  | eof
  | err (e : E)

/-- Modelled from the spec: reference semantics of `TranslateSliceParallel`
(datamodel/translate.go, not under src/). §4.8 guarantees that the order
observed by consume equals the index order of the inputs, independent of the
completion order of the parallel translate calls, so the concurrent execution
is modelled by delivering results in index order. Continue skips delivery;
EndOfInput from either side returns success immediately; an error cancels the
remaining work and is returned, with no further consume invocation. The result
carries the final error (`none` on success), the values delivered to consume in
delivery order, and the indices at which translate was invoked. -/
def translateSliceAux {T U E : Type} (translate : Nat → T → TranslateRes U E)
    (consume : U → ConsumeRes E) : Nat → List T → Option E × List U × List Nat
  | _, [] => (none, [], [])
  | i, t :: ts =>
    match translate i t with
    | .err e => (some e, [], [i])
    | .eof => (none, [], [i])
    | .cont =>
      let r := translateSliceAux translate consume (i + 1) ts
      (r.1, r.2.1, i :: r.2.2)
    | .value u =>
      match consume u with
      | .err e => (some e, [u], [i])
      | .eof => (none, [u], [i])
      | .ok =>
        let r := translateSliceAux translate consume (i + 1) ts
        (r.1, u :: r.2.1, i :: r.2.2)

/-- Modelled from the spec: `TranslateSliceParallel` starts delivery at input
index 0. -/
def TranslateSliceParallel {T U E : Type} (translate : Nat → T → TranslateRes U E)
    (consume : U → ConsumeRes E) (inputs : List T) : Option E × List U × List Nat :=
  translateSliceAux translate consume 0 inputs

theorem translateSliceAux_happy {T U E : Type} (translate : Nat → T → TranslateRes U E)
    (consume : U → ConsumeRes E) (f : Nat → T → U)
    (htr : ∀ i t, translate i t = .value (f i t))
    (hco : ∀ u, consume u = .ok) :
    ∀ ts n, translateSliceAux translate consume n ts =
      (none, (List.enumFrom n ts).map fun p => f p.1 p.2,
        (List.enumFrom n ts).map Prod.fst) := by
  intro ts
  induction ts with
  | nil => intro n; rfl
  | cons t ts ih =>
    intro n
    simp only [translateSliceAux, htr n t, hco (f n t)]
    rw [ih (n + 1)]
    rfl

/-- C5: on the happy path (every translate call yields a value, every consume
call accepts) the consumed sequence equals map(translate, inputs) in input
index order, and translate is invoked exactly once per element, at each index
in ascending order. -/
theorem c5_translate_slice_happy {T U E : Type} (translate : Nat → T → TranslateRes U E)
    (consume : U → ConsumeRes E) (inputs : List T) (f : Nat → T → U)
    (htr : ∀ i t, translate i t = .value (f i t))
    (hco : ∀ u, consume u = .ok) :
    TranslateSliceParallel translate consume inputs =
      (none, inputs.enum.map fun p => f p.1 p.2, inputs.enum.map Prod.fst) := by
  rw [TranslateSliceParallel, translateSliceAux_happy translate consume f htr hco inputs 0]
  rfl

/-- Witness for C5: a concrete happy-path run of three inputs consumes the
translated values in index order, with translate invoked once per index. -/
theorem c5_translate_slice_happy_witness :
    TranslateSliceParallel (E := Unit) (fun i t => TranslateRes.value (t + i))
      (fun _ => ConsumeRes.ok) [10, 20, 30] = (none, [10, 21, 32], [0, 1, 2]) := by
  rw [c5_translate_slice_happy (E := Unit) (fun i t => TranslateRes.value (t + i))
    (fun _ => ConsumeRes.ok) [10, 20, 30] (fun i t => t + i)
    (fun _ _ => rfl) (fun _ => rfl)]
  rfl

theorem map_comp_range_succ {α : Type} (g : Nat → α) (n k : Nat) :
    List.map (fun i => g (n + i)) (List.range (k + 1)) =
      g n :: List.map (fun i => g (n + 1 + i)) (List.range k) := by
  rw [List.range_succ_eq_map, List.map_cons, List.map_map, Nat.add_zero]
  congr 1
  apply List.map_congr_left
  intro a _
  simp only [Function.comp_apply]
  congr 1
  omega

theorem map_add_range_succ (n k : Nat) :
    List.map (fun i => n + i) (List.range (k + 1)) =
      n :: List.map (fun i => n + 1 + i) (List.range k) := by
  rw [List.range_succ_eq_map, List.map_cons, List.map_map, Nat.add_zero]
  congr 1
  apply List.map_congr_left
  intro a _
  simp only [Function.comp_apply]
  omega

theorem translateSliceAux_first_error {T U E : Type}
    (translate : Nat → T → TranslateRes U E) (consume : U → ConsumeRes E)
    (rest : List T) (tk : T) (f : Nat → U) (e : E) :
    ∀ (pre : List T) (n : Nat),
      (∀ i (hi : i < pre.length), translate (n + i) (pre.get ⟨i, hi⟩) = .value (f (n + i))) →
      (∀ i, i < pre.length → consume (f (n + i)) = .ok) →
      translate (n + pre.length) tk = .err e →
      translateSliceAux translate consume n (pre ++ tk :: rest) =
        (some e, (List.range pre.length).map fun i => f (n + i),
          (List.range (pre.length + 1)).map fun i => n + i) := by
  intro pre
  induction pre with
  | nil =>
    intro n h1 h2 hk
    simp only [List.length_nil, Nat.add_zero] at hk
    simp only [List.nil_append, translateSliceAux, hk]
    simp [List.range_succ]
  | cons p ps ih =>
    intro n h1 h2 hk
    have hp : translate n p = .value (f n) := by
      have := h1 0 (by simp)
      simpa using this
    have hcp : consume (f n) = .ok := by
      have := h2 0 (by simp)
      simpa using this
    have h1' : ∀ i (hi : i < ps.length),
        translate (n + 1 + i) (ps.get ⟨i, hi⟩) = .value (f (n + 1 + i)) := by
      intro i hi
      have := h1 (i + 1) (by simpa using Nat.succ_lt_succ hi)
      have harith : n + (i + 1) = n + 1 + i := by omega
      rw [harith] at this
      exact this
    have h2' : ∀ i, i < ps.length → consume (f (n + 1 + i)) = .ok := by
      intro i hi
      have := h2 (i + 1) (by simpa using Nat.succ_lt_succ hi)
      have harith : n + (i + 1) = n + 1 + i := by omega
      rw [harith] at this
      exact this
    have hk' : translate (n + 1 + ps.length) tk = .err e := by
      have harith : n + (p :: ps).length = n + 1 + ps.length := by
        simp
        omega
      rw [harith] at hk
      exact hk
    simp only [List.cons_append, translateSliceAux, hp, hcp, List.append_eq]
    rw [ih (n + 1) h1' h2' hk']
    refine Prod.ext rfl (Prod.ext ?_ ?_)
    · show f n :: ((List.range ps.length).map fun i => f (n + 1 + i)) =
        (List.range (ps.length + 1)).map fun i => f (n + i)
      rw [map_comp_range_succ f n ps.length]
    · show n :: ((List.range (ps.length + 1)).map fun i => n + 1 + i) =
        (List.range (ps.length + 1 + 1)).map fun i => n + i
      rw [map_add_range_succ n (ps.length + 1)]

/-- C6: if translate errs at index k while every earlier index yields a value
that consume accepts, then exactly that first error is returned, consume is
invoked only for the k earlier indices (none after cancellation), and translate
is not invoked beyond index k; in particular with k = 0 (every translate call
errs) consume is never invoked. -/
theorem c6_translate_slice_first_error {T U E : Type}
    (translate : Nat → T → TranslateRes U E) (consume : U → ConsumeRes E)
    (pre rest : List T) (tk : T) (f : Nat → U) (e : E)
    (h1 : ∀ i (hi : i < pre.length), translate i (pre.get ⟨i, hi⟩) = .value (f i))
    (h2 : ∀ i, i < pre.length → consume (f i) = .ok)
    (hk : translate pre.length tk = .err e) :
    TranslateSliceParallel translate consume (pre ++ tk :: rest) =
      (some e, (List.range pre.length).map f, List.range (pre.length + 1)) := by
  rw [TranslateSliceParallel,
    translateSliceAux_first_error translate consume rest tk f e pre 0
      (by intro i hi; simpa using h1 i hi)
      (by intro i hi; simpa using h2 i hi)
      (by simpa using hk)]
  simp

/-- Witness for C6: with a concrete input whose second element is the first to
err, the error is returned, only the first value is consumed, and nothing
after index 1 is translated; a second application with an immediate error shows
consume is never invoked when every translate call errs. -/
theorem c6_translate_slice_first_error_witness :
    TranslateSliceParallel (U := Nat)
      (fun i t => if i = 0 then TranslateRes.value t else TranslateRes.err 99)
      (fun _ => ConsumeRes.ok) [5, 7, 9] = (some 99, [5], [0, 1]) ∧
    TranslateSliceParallel (U := Nat)
      (fun _ _ => TranslateRes.err 42) (fun _ => ConsumeRes.ok) [5, 7, 9] =
      (some 42, [], [0]) := by
  constructor
  · exact c6_translate_slice_first_error
      (fun i t => if i = 0 then TranslateRes.value t else TranslateRes.err 99)
      (fun _ => ConsumeRes.ok) [5] [9] 7 (fun _ => 5) 99
      (by
        intro i hi
        have h0 : i = 0 := Nat.lt_one_iff.mp (by simpa using hi)
        subst h0
        rfl)
      (by intro i hi; rfl) (by rfl)
  · exact c6_translate_slice_first_error
      (fun _ _ => TranslateRes.err 42)
      (fun _ => ConsumeRes.ok) [] [7, 9] 5 (fun _ => 0) 42
      (by intro i hi; exact absurd hi (by simp))
      (by intro i hi; exact absurd hi (by simp)) (by rfl)

/- ## YAML nodes, key lookup, and document construction (v3 and 3.0) -/

/-- Shallow model of gopkg.in/yaml.v3 nodes: scalars carry their string value,
mappings their ordered key/value entries, sequences their items; every node
carries its 1-indexed source line. -/
inductive YamlNode where
  | scalar (value : List Char) (line : Nat)
  | mapping (entries : List (YamlNode × YamlNode)) (line : Nat)
  | sequence (items : List YamlNode) (line : Nat)

/-- Modelled from the spec: `utils.IsNodeMap` (§4.1 IsMap shape test); the
utils package is not under src/ apart from part_000. -/
def isNodeMap : YamlNode → Bool
  | .mapping _ _ => true
  | _ => false

/-- Modelled from the spec: `utils.IsNodeArray` (§4.1 IsArray shape test). -/
def isNodeArray : YamlNode → Bool
  | .sequence _ _ => true
  | _ => false

/-- The `Value` field of a yaml.Node: the string value of a scalar node, empty
for collections. -/
def nodeValue : YamlNode → List Char
  | .scalar v _ => v
  | _ => []

/-- Modelled from the spec: `utils.FindKeyNodeFull` / `FindKeyNodeFullTop` are
not under src/; per §4.1 (FindKeyTop) the key is located at the top level of a
mapping only, returning the label node and value node, or nulls. The mapping is
given by its ordered key/value entry list. -/
def findKeyNodeFull (key : List Char) : List (YamlNode × YamlNode) → Option (YamlNode × YamlNode)
  | [] => none
  | (k, v) :: rest => if nodeValue k = key then some (k, v) else findKeyNodeFull key rest

def OpenAPILabel : List Char := ['o', 'p', 'e', 'n', 'a', 'p', 'i']

def InfoLabel : List Char := ['i', 'n', 'f', 'o']

def ServersLabel : List Char := ['s', 'e', 'r', 'v', 'e', 'r', 's']

def TagsLabel : List Char := ['t', 'a', 'g', 's']

def ComponentsLabel : List Char := ['c', 'o', 'm', 'p', 'o', 'n', 'e', 'n', 't', 's']

def SecurityLabel : List Char := ['s', 'e', 'c', 'u', 'r', 'i', 't', 'y']

def ExternalDocsLabel : List Char := ['e', 'x', 't', 'e', 'r', 'n', 'a', 'l', 'D', 'o', 'c', 's']

def PathsLabel : List Char := ['p', 'a', 't', 'h', 's']

def WebhooksLabel : List Char := ['w', 'e', 'b', 'h', 'o', 'o', 'k', 's']

def JSONSchemaDialectLabel : List Char :=
  ['j', 's', 'o', 'n', 'S', 'c', 'h', 'e', 'm', 'a', 'D', 'i', 'a', 'l', 'e', 'c', 't']

/-- Errors of the construction pipeline. `missingVersion` is the fatal
no-openapi-field error of createDocument; every other error is carried
opaquely by a numeric identity, since createDocument never inspects error
contents. -/
inductive Err where
  | missingVersion
  | other (id : Nat)
deriving DecidableEq, Repr

/-- Embedding of `low.NodeReference[string]`: value plus key and value nodes. -/
structure NodeReferenceStr where
  value : List Char
  keyNode : Option YamlNode
  valueNode : Option YamlNode

/-- Embedding of `low.ValueReference` for built servers/tags: the built object
is identified by its source value node (the Build internals, not under src/,
do not influence which items are built). -/
structure ValueRef where
  valueNode : YamlNode

/-- Embedding of `low.NodeReference` over a sequence of value references, as
used for the Servers and Tags document fields. -/
structure SeqNodeReference where
  value : List ValueRef
  keyNode : YamlNode
  valueNode : YamlNode

/-- Modelled from the spec: outcomes of subsystems invoked by createDocument
whose code is not under src/ — rolodex indexing and circular-reference
checking (§4.3, §4.6) and the Build/Extract helpers of §4.7 used by the
components/security/externalDocs/paths/webhooks extractors and by Tag.Build.
createDocument only propagates these outcomes; it never inspects them. -/
structure BuildEnv where
  rolodexErrors : List Err
  tagBuild : YamlNode → Option Err
  componentsBuild : Option Err
  securityExtract : Option Err
  externalDocsExtract : Option Err
  pathsBuild : Option Err
  webhooksExtract : Option Err

/-- Embedding of extractInfo: the info field is set when the key is found; the
Build outcome is discarded by the source (`_ = ir.Build(...)`) and the
function always returns nil. -/
def extractInfo (root : List (YamlNode × YamlNode)) :
    Option (YamlNode × YamlNode) × Option Err :=
  (findKeyNodeFull InfoLabel root, none)

/-- Embedding of extractServers (src/datamodel/low/v3/create_document.go,
identical in src/datamodel/low/3.0/create_document.go): when the servers key
is found and its value node is an array, one server is built per mapping item
(non-map items are skipped) and the field is set; otherwise the field stays
unset. Every path returns a nil error. -/
def extractServers (root : List (YamlNode × YamlNode)) :
    Option SeqNodeReference × Option Err :=
  match findKeyNodeFull ServersLabel root with
  | none => (none, none)
  | some (ln, vn) =>
    match vn with
    | .sequence items l =>
      (some ⟨(items.filter isNodeMap).map ValueRef.mk, ln, .sequence items l⟩, none)
    | _ => (none, none)

/-- Worker for extractTags: builds the mapping items in order; the first
Tag.Build error aborts the loop (the source returns it immediately). -/
def buildTags (tagBuild : YamlNode → Option Err) : List YamlNode → Except Err (List ValueRef)
  | [] => .ok []
  | n :: ns =>
    if isNodeMap n then
      match tagBuild n with
      | some e => .error e
      | none =>
        match buildTags tagBuild ns with
        | .error e => .error e
        | .ok l => .ok (⟨n⟩ :: l)
    else buildTags tagBuild ns

/-- Embedding of extractTags: like extractServers, except that a Tag.Build
error is returned immediately, leaving the field unset. -/
def extractTags (root : List (YamlNode × YamlNode)) (tagBuild : YamlNode → Option Err) :
    Option SeqNodeReference × Option Err :=
  match findKeyNodeFull TagsLabel root with
  | none => (none, none)
  | some (ln, vn) =>
    match vn with
    | .sequence items l =>
      match buildTags tagBuild items with
      | .error e => (none, some e)
      | .ok lst => (some ⟨lst, ln, .sequence items l⟩, none)
    | _ => (none, none)

/-- Embedding of extractComponents: when the key is found, a Components.Build
error (outcome supplied by the environment) is returned with the field unset;
otherwise the field is set. -/
def extractComponents (root : List (YamlNode × YamlNode)) (buildRes : Option Err) :
    Option (YamlNode × YamlNode) × Option Err :=
  match findKeyNodeFull ComponentsLabel root with
  | none => (none, none)
  | some (ln, vn) =>
    match buildRes with
    | some e => (none, some e)
    | none => (some (ln, vn), none)

/-- Embedding of extractSecurity: an ExtractArray error (environment outcome)
is returned with the field unset; otherwise the field reflects the key
lookup. -/
def extractSecurity (root : List (YamlNode × YamlNode)) (extractRes : Option Err) :
    Option (YamlNode × YamlNode) × Option Err :=
  match extractRes with
  | some e => (none, some e)
  | none => (findKeyNodeFull SecurityLabel root, none)

/-- Embedding of extractExternalDocs: an ExtractObject error (environment
outcome) is returned with the field unset; otherwise the field reflects the
key lookup. -/
def extractExternalDocs (root : List (YamlNode × YamlNode)) (extractRes : Option Err) :
    Option (YamlNode × YamlNode) × Option Err :=
  match extractRes with
  | some e => (none, some e)
  | none => (findKeyNodeFull ExternalDocsLabel root, none)

/-- Embedding of extractPaths: when the key is found, a Paths.Build error
(environment outcome) is returned with the field unset; otherwise the field is
set. -/
def extractPaths (root : List (YamlNode × YamlNode)) (buildRes : Option Err) :
    Option (YamlNode × YamlNode) × Option Err :=
  match findKeyNodeFull PathsLabel root with
  | none => (none, none)
  | some (ln, vn) =>
    match buildRes with
    | some e => (none, some e)
    | none => (some (ln, vn), none)

/-- Embedding of extractWebhooks: an ExtractMap error (environment outcome) is
returned with the field unset; otherwise the field reflects the key lookup. -/
def extractWebhooks (root : List (YamlNode × YamlNode)) (extractRes : Option Err) :
    Option (YamlNode × YamlNode) × Option Err :=
  match extractRes with
  | some e => (none, some e)
  | none => (findKeyNodeFull WebhooksLabel root, none)

/-- Modelled from the spec: `low.ExtractExtensions` (not under src/) collects
the top-level keys with the `x-` extension prefix (§4.1). -/
def extractExtensions (root : List (YamlNode × YamlNode)) : List (YamlNode × YamlNode) :=
  root.filter (fun p => (nodeValue p.1).take 2 = ['x', '-'])

/-- Embedding of the v3 low Document restricted to the fields the claims
quantify over. Fields whose build internals are not under src/ are recorded by
their located key/value nodes, which is all createDocument assigns from. -/
structure DocumentV3 where
  version : NodeReferenceStr
  extensions : List (YamlNode × YamlNode)
  jsonSchemaDialect : Option NodeReferenceStr
  info : Option (YamlNode × YamlNode)
  servers : Option SeqNodeReference
  tags : Option SeqNodeReference
  components : Option (YamlNode × YamlNode)
  security : Option (YamlNode × YamlNode)
  externalDocs : Option (YamlNode × YamlNode)
  paths : Option (YamlNode × YamlNode)
  webhooks : Option (YamlNode × YamlNode)

/-- Embedding of createDocument (src/datamodel/low/v3/create_document.go) for
the default configuration (no BasePath and no BaseURL, the defaults of
NewDocumentConfiguration used by CreateDocument, so no local or remote
filesystem branch runs). The version gate comes first; then rolodex errors are
harvested and the eight extraction functions run, their errors appended to the
shared slice while the document itself is always returned. The goroutine pool
joined by the WaitGroup is modelled by running the extraction functions in
their declaration order (the error-slice order is not part of any claim). -/
def createDocument (root : List (YamlNode × YamlNode)) (env : BuildEnv) :
    Option DocumentV3 × List Err :=
  match findKeyNodeFull OpenAPILabel root with
  | none => (none, [Err.missingVersion])
  | some (ln, vn) =>
    let version : NodeReferenceStr := ⟨nodeValue vn, some ln, some vn⟩
    let extensions := extractExtensions root
    let dialect := (findKeyNodeFull JSONSchemaDialectLabel root).map
      (fun p => (⟨nodeValue p.2, some p.1, some p.2⟩ : NodeReferenceStr))
    let infoR := extractInfo root
    let serversR := extractServers root
    let tagsR := extractTags root env.tagBuild
    let componentsR := extractComponents root env.componentsBuild
    let securityR := extractSecurity root env.securityExtract
    let externalDocsR := extractExternalDocs root env.externalDocsExtract
    let pathsR := extractPaths root env.pathsBuild
    let webhooksR := extractWebhooks root env.webhooksExtract
    let extractionErrs := [infoR.2, serversR.2, tagsR.2, componentsR.2,
      securityR.2, externalDocsR.2, pathsR.2, webhooksR.2].filterMap id
    (some ⟨version, extensions, dialect, infoR.1, serversR.1, tagsR.1,
      componentsR.1, securityR.1, externalDocsR.1, pathsR.1, webhooksR.1⟩,
      env.rolodexErrors ++ extractionErrs)

/-- Embedding of the 3.0 low Document (src/datamodel/low/3.0). -/
structure Document30 where
  version : List Char
  extensions : List (YamlNode × YamlNode)
  info : Option (YamlNode × YamlNode)
  servers : Option SeqNodeReference
  tags : Option SeqNodeReference
  components : Option (YamlNode × YamlNode)
  security : Option (YamlNode × YamlNode)
  externalDocs : Option (YamlNode × YamlNode)
  paths : Option (YamlNode × YamlNode)

/-- Embedding of CreateDocument (src/datamodel/low/3.0/create_document.go):
there is no version gate — the Version field is prefilled from SpecInfo, the
resolver outcome is discarded (`_ = resolve.CheckForCircularReferences()`),
and the document plus the accumulated extractor errors is always returned. -/
def CreateDocument30 (specVersion : List Char) (root : List (YamlNode × YamlNode))
    (env : BuildEnv) : Option Document30 × List Err :=
  let infoR := extractInfo root
  let serversR := extractServers root
  let tagsR := extractTags root env.tagBuild
  let componentsR := extractComponents root env.componentsBuild
  let securityR := extractSecurity root env.securityExtract
  let externalDocsR := extractExternalDocs root env.externalDocsExtract
  let pathsR := extractPaths root env.pathsBuild
  let extractionErrs := [infoR.2, serversR.2, tagsR.2, componentsR.2,
    securityR.2, externalDocsR.2, pathsR.2].filterMap id
  (some ⟨specVersion, extractExtensions root, infoR.1, serversR.1, tagsR.1,
    componentsR.1, securityR.1, externalDocsR.1, pathsR.1⟩, extractionErrs)

/-- C1: without an openapi key on the root mapping, createDocument returns a
null document with the single fatal MissingVersion error, independent of every
subsystem outcome (no extraction is performed); with the key present, a
document is returned whose Version carries the version node's scalar value and
the located key/value nodes. -/
theorem c1_create_document_version_gate (root : List (YamlNode × YamlNode)) (env : BuildEnv) :
    (findKeyNodeFull OpenAPILabel root = none →
      createDocument root env = (none, [Err.missingVersion])) ∧
    (∀ ln vn, findKeyNodeFull OpenAPILabel root = some (ln, vn) →
      ∃ doc, (createDocument root env).1 = some doc ∧
        doc.version = ⟨nodeValue vn, some ln, some vn⟩) := by
  constructor
  · intro h
    rw [createDocument, h]
  · intro ln vn h
    rw [createDocument, h]
    exact ⟨_, rfl, rfl⟩

/-- Witness for C1: a root without the openapi key yields a null document and
only the fatal error even under a non-trivial environment, and a root with
`openapi: 3.1.0` yields a document whose Version value is `3.1.0`. -/
theorem c1_create_document_version_gate_witness :
    createDocument [(.scalar InfoLabel 1, .mapping [] 1)]
      ⟨[Err.other 7], fun _ => some (Err.other 8), some (Err.other 9), none,
        none, none, none⟩ = (none, [Err.missingVersion]) ∧
    ∃ doc,
      (createDocument [(.scalar OpenAPILabel 1, .scalar ['3', '.', '1', '.', '0'] 1)]
        ⟨[Err.other 7], fun _ => some (Err.other 8), some (Err.other 9), none,
          none, none, none⟩).1 = some doc ∧
      doc.version = ⟨['3', '.', '1', '.', '0'],
        some (.scalar OpenAPILabel 1), some (.scalar ['3', '.', '1', '.', '0'] 1)⟩ := by
  constructor
  · exact (c1_create_document_version_gate _ _).1 rfl
  · exact (c1_create_document_version_gate _ _).2
      (.scalar OpenAPILabel 1) (.scalar ['3', '.', '1', '.', '0'] 1) rfl

/-- C2: with a version key present, createDocument returns a non-null document
for every outcome of the fallible subsystems; the returned aggregate is
exactly the rolodex errors followed by the extraction errors (so every such
error is accumulated and its presence never nulls the document), and the 3.0
CreateDocument returns a non-null document unconditionally with its extractor
errors accumulated. -/
theorem c2_errors_do_not_invalidate (root : List (YamlNode × YamlNode)) (env : BuildEnv)
    (specVersion : List Char) (ln vn : YamlNode)
    (h : findKeyNodeFull OpenAPILabel root = some (ln, vn)) :
    (createDocument root env).1.isSome ∧
    (createDocument root env).2 = env.rolodexErrors ++
      ([(extractInfo root).2, (extractServers root).2,
        (extractTags root env.tagBuild).2,
        (extractComponents root env.componentsBuild).2,
        (extractSecurity root env.securityExtract).2,
        (extractExternalDocs root env.externalDocsExtract).2,
        (extractPaths root env.pathsBuild).2,
        (extractWebhooks root env.webhooksExtract).2].filterMap id) ∧
    (∀ e ∈ env.rolodexErrors, e ∈ (createDocument root env).2) ∧
    (CreateDocument30 specVersion root env).1.isSome := by
  refine ⟨?_, ?_, ?_, ?_⟩
  · rw [createDocument, h]
    rfl
  · rw [createDocument, h]
  · intro e he
    rw [createDocument, h]
    exact List.mem_append_left _ he
  · rfl

/-- Witness for C2: a document with a version key and errors from the rolodex,
Tag.Build and Components.Build still comes back non-null, with all three
errors in the aggregate. -/
theorem c2_errors_do_not_invalidate_witness :
    (createDocument
      [(.scalar OpenAPILabel 1, .scalar ['3', '.', '0', '.', '3'] 1),
       (.scalar TagsLabel 2, .sequence [.mapping [] 2] 2),
       (.scalar ComponentsLabel 3, .mapping [] 3)]
      ⟨[Err.other 1], fun _ => some (Err.other 2), some (Err.other 3), none,
        none, none, none⟩).1.isSome ∧
    (createDocument
      [(.scalar OpenAPILabel 1, .scalar ['3', '.', '0', '.', '3'] 1),
       (.scalar TagsLabel 2, .sequence [.mapping [] 2] 2),
       (.scalar ComponentsLabel 3, .mapping [] 3)]
      ⟨[Err.other 1], fun _ => some (Err.other 2), some (Err.other 3), none,
        none, none, none⟩).2 = [Err.other 1, Err.other 2, Err.other 3] := by
  have h := c2_errors_do_not_invalidate
    [(.scalar OpenAPILabel 1, .scalar ['3', '.', '0', '.', '3'] 1),
     (.scalar TagsLabel 2, .sequence [.mapping [] 2] 2),
     (.scalar ComponentsLabel 3, .mapping [] 3)]
    ⟨[Err.other 1], fun _ => some (Err.other 2), some (Err.other 3), none,
      none, none, none⟩
    ['3', '.', '0', '.', '3']
    (.scalar OpenAPILabel 1) (.scalar ['3', '.', '0', '.', '3'] 1) rfl
  refine ⟨h.1, ?_⟩
  rw [h.2.1]
  rfl

theorem buildTags_all_ok (tagBuild : YamlNode → Option Err)
    (h : ∀ n, tagBuild n = none) :
    ∀ items, buildTags tagBuild items = .ok ((items.filter isNodeMap).map ValueRef.mk) := by
  intro items
  induction items with
  | nil => rfl
  | cons n ns ih =>
    rw [buildTags]
    by_cases hm : isNodeMap n = true
    · rw [if_pos hm, h n, ih, List.filter_cons_of_pos hm, List.map_cons]
    · rw [if_neg hm, ih, List.filter_cons_of_neg (by simpa using hm)]

/-- C7: when the servers (resp. tags) top-level key holds a non-array node,
the extractor returns no error and leaves the document field unset; when it
holds an array, exactly the mapping items are built into the resulting
sequence, in source order. -/
theorem c7_servers_tags_extraction (root : List (YamlNode × YamlNode))
    (tagBuild : YamlNode → Option Err) :
    (∀ ln vn, findKeyNodeFull ServersLabel root = some (ln, vn) →
      isNodeArray vn = false → extractServers root = (none, none)) ∧
    (∀ ln vn, findKeyNodeFull TagsLabel root = some (ln, vn) →
      isNodeArray vn = false → extractTags root tagBuild = (none, none)) ∧
    (∀ env doc ln vn, findKeyNodeFull ServersLabel root = some (ln, vn) →
      isNodeArray vn = false → (createDocument root env).1 = some doc →
      doc.servers = none) ∧
    (∀ ln items l, findKeyNodeFull ServersLabel root = some (ln, .sequence items l) →
      extractServers root =
        (some ⟨(items.filter isNodeMap).map ValueRef.mk, ln, .sequence items l⟩, none)) ∧
    (∀ ln items l, (∀ n, tagBuild n = none) →
      findKeyNodeFull TagsLabel root = some (ln, .sequence items l) →
      extractTags root tagBuild =
        (some ⟨(items.filter isNodeMap).map ValueRef.mk, ln, .sequence items l⟩, none)) := by
  refine ⟨?_, ?_, ?_, ?_, ?_⟩
  · intro ln vn h hna
    rw [extractServers, h]
    cases vn with
    | scalar v l => rfl
    | mapping es l => rfl
    | sequence items l => simp [isNodeArray] at hna
  · intro ln vn h hna
    rw [extractTags, h]
    cases vn with
    | scalar v l => rfl
    | mapping es l => rfl
    | sequence items l => simp [isNodeArray] at hna
  · intro env doc ln vn h hna hdoc
    have hs : extractServers root = (none, none) := by
      rw [extractServers, h]
      cases vn with
      | scalar v l => rfl
      | mapping es l => rfl
      | sequence items l => simp [isNodeArray] at hna
    cases hfind : findKeyNodeFull OpenAPILabel root with
    | none =>
      rw [createDocument, hfind] at hdoc
      cases hdoc
    | some p =>
      rw [createDocument, hfind] at hdoc
      simp only [hs] at hdoc
      injection hdoc with hd
      rw [← hd]
  · intro ln items l h
    rw [extractServers, h]
  · intro ln items l hok h
    rw [extractTags, h]
    simp only [buildTags_all_ok tagBuild hok items]

/-- Witness for C7: a root whose servers value is a scalar and whose tags
value is a mapping extracts neither field and reports no error; a root whose
servers value is an array of one mapping, one scalar and one mapping builds
exactly the two mapping items in order. -/
theorem c7_servers_tags_extraction_witness :
    extractServers [(.scalar ServersLabel 1, .scalar ['x'] 1)] = (none, none) ∧
    extractTags [(.scalar TagsLabel 1, .mapping [] 1)] (fun _ => none) = (none, none) ∧
    extractServers
      [(.scalar ServersLabel 1,
        .sequence [.mapping [] 2, .scalar ['y'] 3, .mapping [] 4] 1)] =
      (some ⟨[⟨.mapping [] 2⟩, ⟨.mapping [] 4⟩], .scalar ServersLabel 1,
        .sequence [.mapping [] 2, .scalar ['y'] 3, .mapping [] 4] 1⟩, none) := by
  refine ⟨?_, ?_, ?_⟩
  · exact (c7_servers_tags_extraction _ (fun _ => none)).1
      (.scalar ServersLabel 1) (.scalar ['x'] 1) rfl rfl
  · exact (c7_servers_tags_extraction _ (fun _ => none)).2.1
      (.scalar TagsLabel 1) (.mapping [] 1) rfl rfl
  · have h := (c7_servers_tags_extraction
      [(.scalar ServersLabel 1,
        .sequence [.mapping [] 2, .scalar ['y'] 3, .mapping [] 4] 1)]
      (fun _ => none)).2.2.2.1
      (.scalar ServersLabel 1) [.mapping [] 2, .scalar ['y'] 3, .mapping [] 4] 1 rfl
    rw [h]
    rfl

/- ## Node builder (datamodel/high/node_builder.go) -/

/-- The source line of a yaml node (`yaml.Node.Line`). -/
def nodeLine : YamlNode → Nat
  | .scalar _ l => l
  | .mapping _ l => l
  | .sequence _ l => l

/-- Go reflect view of a high-level field value as inspected by
`NodeBuilder.add`: kinds int, string, bool, pointer, slice and map. Pointer
and map payloads are opaque to `add` (they are carried wholesale into the node
entry), so they are identified here by a numeric id; slice elements are read
by `add` only through `.String()`, so they are carried as scalar strings. -/
inductive GoValue where
  | goInt (n : Int)
  | goString (s : List Char)
  | goBool (b : Bool)
  | goPtr (nilPtr : Bool) (id : Nat)
  | goSlice (nilSlice : Bool) (elems : List (List Char))
  | goMap (nilMap : Bool) (id : Nat)
deriving DecidableEq, Repr

/-- Go `reflect.Value.IsZero` for the kinds above: integer 0, empty string,
false boolean, nil pointer, nil slice, nil map. -/
def isZero : GoValue → Bool
  | .goInt n => n == 0
  | .goString s => s.isEmpty
  | .goBool b => !b
  | .goPtr nilPtr _ => nilPtr
  | .goSlice nilSlice _ => nilSlice
  | .goMap nilMap _ => nilMap

/-- Embedding of `high.NodeEntry`: tag, key, optional value and source line
(`Line` is zero-valued on creation, as in Go). In this model the key mirrors
the yaml tag name, since no claim distinguishes the Go field name from its
tag. -/
structure NodeEntry where
  tag : List Char
  key : List Char
  value : Option GoValue
  line : Nat
deriving DecidableEq, Repr

def TypeLabel : List Char := ['t', 'y', 'p', 'e']

/-- Go `strconv.FormatInt(n, 10)`. -/
def formatInt (n : Int) : List Char :=
  if n < 0 then '-' :: Nat.toDigits 10 n.natAbs
  else Nat.toDigits 10 n.natAbs

/-- The value-computation switch of `NodeBuilder.add`: integers are rendered
through FormatInt, strings and booleans are taken directly, a slice tagged
`type` contributes its single element's string (otherwise the entry value
stays unset), and non-nil slices, pointers and maps are carried wholesale. -/
def computeValue (tagName : List Char) (v : GoValue) : Option GoValue :=
  match v with
  | .goInt n => some (.goString (formatInt n))
  | .goString s => some (.goString s)
  | .goBool b => some (.goBool b)
  | .goSlice nilSlice elems =>
    if tagName = TypeLabel then
      match elems with
      | [e] => some (.goString e)
      | _ => none
    else if nilSlice then none else some (.goSlice nilSlice elems)
  | .goPtr nilPtr id => if nilPtr then none else some (.goPtr nilPtr id)
  | .goMap nilMap id => if nilMap then none else some (.goMap nilMap id)

/-- The low-side counterpart of a field as seen by `NodeBuilder.add` through
reflection: the whole low object may be absent (zero interface); the low field
may be a struct — a NodeReference whose GetValueNode yields a node or nil —
or of any other reflect kind. -/
inductive LowFieldView where
  | lowAbsent
  | structRef (valueNode : Option YamlNode)
  | otherKind

/-- The line `NodeBuilder.add` assigns: with no low object the entry keeps
line 0 (the source comment says new content is placed at the top of the
rendered object); a struct low field contributes its value node's line when
that node is non-nil and otherwise leaves 0; every other kind is weighted to
the bottom with the literal 9999. -/
def lowLine : LowFieldView → Nat
  | .lowAbsent => 0
  | .structRef (some n) => nodeLine n
  | .structRef none => 0
  | .otherKind => 9999

/-- Embedding of `NodeBuilder.add` for a non-Extensions exported field (the
Extensions branch walks the extension maps instead and is not quantified over
by the claims): a yaml tag of dash is skipped, a nil or zero field value is
skipped, the entry value comes from the kind switch, the line from the low
side, and the entry is appended only when its value is set. -/
def addField (lowView : LowFieldView) (tagName : List Char) (f : Option GoValue)
    (nodes : List NodeEntry) : List NodeEntry :=
  if tagName = ['-'] then nodes
  else
    match f with
    | none => nodes
    | some v =>
      if isZero v then nodes
      else
        match computeValue tagName v with
        | none => nodes
        | some w => nodes ++ [⟨tagName, tagName, some w, lowLine lowView⟩]

/-- Modelled from the spec of Go's `sort.Slice` (the Go standard library's
implementation is not part of this repository): `Render` sorts `n.Nodes` with
the comparator `Line i < Line j`, so an admissible output is any permutation
of the entries that is nondecreasing in `Line`. `sort.Slice` documents that
the sort is not guaranteed to be stable, so no further property of the chosen
permutation is available. -/
def RenderOrder (nodes out : List NodeEntry) : Prop :=
  nodes.Perm out ∧ out.Pairwise (fun a b => a.line ≤ b.line)

instance (nodes out : List NodeEntry) : Decidable (RenderOrder nodes out) :=
  inferInstanceAs (Decidable (And _ _))

/-- C9: a field holding the zero value of its kind — false boolean, empty
string, integer 0, nil pointer, nil map, nil slice — or a nil interface is
never added to the node list by `NodeBuilder.add`, hence omitted entirely from
the rendered mapping, whatever the low side holds. -/
theorem c9_zero_values_omitted (lowView : LowFieldView) (tagName : List Char)
    (nodes : List NodeEntry) :
    (addField lowView tagName none nodes = nodes) ∧
    (∀ v, isZero v = true → addField lowView tagName (some v) nodes = nodes) := by
  constructor
  · by_cases h : tagName = ['-'] <;> simp [addField, h]
  · intro v hv
    by_cases h : tagName = ['-']
    · simp [addField, h]
    · simp [addField, h, hv]

/-- Witness for C9: a false boolean, an empty string and a nil map each leave
the node list unchanged, for representative low-side shapes. -/
theorem c9_zero_values_omitted_witness :
    addField .lowAbsent ['x'] (some (.goBool false)) [] = [] ∧
    addField .otherKind ['y'] (some (.goString [])) [] = [] ∧
    addField (.structRef none) ['z'] (some (.goMap true 0)) [] = [] := by
  refine ⟨?_, ?_, ?_⟩
  · exact (c9_zero_values_omitted .lowAbsent ['x'] []).2 (.goBool false) rfl
  · exact (c9_zero_values_omitted .otherKind ['y'] []).2 (.goString []) rfl
  · exact (c9_zero_values_omitted (.structRef none) ['z'] []).2 (.goMap true 0) rfl

/-- C3 counterexample: a newly added field whose low-side counterpart is an
absent node reference is assigned line 0 — not the 9999 bottom sentinel — so
after sorting it appears at the beginning of the mapping, before an existing
field from line 3; the order with the new field at the end is not an
admissible render order at all. -/
theorem c3_counterexample :
    (addField (.structRef none) ['b'] (some (.goString ['n']))
        (addField (.structRef (some (.scalar ['3'] 3))) ['a'] (some (.goString ['3'])) []) =
      [⟨['a'], ['a'], some (.goString ['3']), 3⟩,
       ⟨['b'], ['b'], some (.goString ['n']), 0⟩]) ∧
    RenderOrder
      [⟨['a'], ['a'], some (.goString ['3']), 3⟩,
       ⟨['b'], ['b'], some (.goString ['n']), 0⟩]
      [⟨['b'], ['b'], some (.goString ['n']), 0⟩,
       ⟨['a'], ['a'], some (.goString ['3']), 3⟩] ∧
    ¬ RenderOrder
      [⟨['a'], ['a'], some (.goString ['3']), 3⟩,
       ⟨['b'], ['b'], some (.goString ['n']), 0⟩]
      [⟨['a'], ['a'], some (.goString ['3']), 3⟩,
       ⟨['b'], ['b'], some (.goString ['n']), 0⟩] := by
  refine ⟨rfl, by decide, by decide⟩

theorem renderOrder_head (nodes : List NodeEntry) (e : NodeEntry) (out : List NodeEntry)
    (hpos : ∀ x ∈ nodes, 1 ≤ x.line) (he : e.line = 0)
    (hro : RenderOrder (nodes ++ [e]) out) : out.head? = some e := by
  obtain ⟨hperm, hsort⟩ := hro
  cases out with
  | nil =>
    have hmem : e ∈ ([] : List NodeEntry) := hperm.mem_iff.mp (by simp)
    cases hmem
  | cons h t =>
    rw [List.pairwise_cons] at hsort
    have hh : h ∈ nodes ++ [e] := hperm.mem_iff.mpr (by simp)
    rcases List.mem_append.mp hh with hn | hsing
    · have hel : e ∈ h :: t := hperm.mem_iff.mp (by simp)
      rcases List.mem_cons.mp hel with heq | ht
      · rw [heq]
        rfl
      · have h1 := hpos h hn
        have h2 := hsort.1 e ht
        rw [he] at h2
        omega
    · have heq : h = e := by simpa using hsing
      rw [heq]
      rfl

/-- C3 (amended): `NodeBuilder.add` assigns a newly added field — one whose
low-side counterpart is an absent (zero) node reference — line 0, so after
sorting by line every admissible render order places it at the beginning of
its enclosing mapping, before all previously parsed fields (whose lines are at
least 1); the 9999 bottom sentinel is applied only to fields whose low
counterpart has non-struct reflect kind. -/
theorem c3_new_fields_render_first (tagName : List Char) (v w : GoValue)
    (nodes : List NodeEntry)
    (hdash : tagName ≠ ['-']) (hz : isZero v = false)
    (hw : computeValue tagName v = some w)
    (hpos : ∀ e ∈ nodes, 1 ≤ e.line) :
    addField (.structRef none) tagName (some v) nodes =
      nodes ++ [⟨tagName, tagName, some w, 0⟩] ∧
    addField .otherKind tagName (some v) nodes =
      nodes ++ [⟨tagName, tagName, some w, 9999⟩] ∧
    ∀ out, RenderOrder (nodes ++ [⟨tagName, tagName, some w, 0⟩]) out →
      out.head? = some ⟨tagName, tagName, some w, 0⟩ := by
  refine ⟨?_, ?_, ?_⟩
  · rw [addField, if_neg hdash]
    simp only [hz, Bool.false_eq_true, if_false, hw]
    rfl
  · rw [addField, if_neg hdash]
    simp only [hz, Bool.false_eq_true, if_false, hw]
    rfl
  · intro out hro
    exact renderOrder_head nodes _ out hpos rfl hro

/-- Witness for C3 (amended): adding a new string field next to an existing
line-3 field yields the line-0 entry, and the only admissible render order
puts the new field first. -/
theorem c3_new_fields_render_first_witness :
    addField (.structRef none) ['b'] (some (.goString ['n']))
      [⟨['a'], ['a'], some (.goString ['3']), 3⟩] =
      [⟨['a'], ['a'], some (.goString ['3']), 3⟩,
       ⟨['b'], ['b'], some (.goString ['n']), 0⟩] ∧
    ([⟨['b'], ['b'], some (.goString ['n']), 0⟩,
      ⟨['a'], ['a'], some (.goString ['3']), 3⟩] : List NodeEntry).head? =
      some ⟨['b'], ['b'], some (.goString ['n']), 0⟩ := by
  have h := c3_new_fields_render_first ['b'] (.goString ['n']) (.goString ['n'])
    [⟨['a'], ['a'], some (.goString ['3']), 3⟩]
    (by decide) rfl rfl (by decide)
  exact ⟨h.1, h.2.2
    [⟨['b'], ['b'], some (.goString ['n']), 0⟩,
     ⟨['a'], ['a'], some (.goString ['3']), 3⟩] (by decide)⟩

/-- C4 counterexample: with two entries on the same line, the swapped output is
also an admissible result of the unstable sort, so equal-line entries need not
retain their enumeration order. -/
theorem c4_counterexample :
    RenderOrder
      [⟨['a'], ['a'], some (.goBool true), 5⟩, ⟨['b'], ['b'], some (.goBool true), 5⟩]
      [⟨['b'], ['b'], some (.goBool true), 5⟩, ⟨['a'], ['a'], some (.goBool true), 5⟩] ∧
    ([⟨['b'], ['b'], some (.goBool true), 5⟩, ⟨['a'], ['a'], some (.goBool true), 5⟩] :
        List NodeEntry) ≠
      [⟨['a'], ['a'], some (.goBool true), 5⟩, ⟨['b'], ['b'], some (.goBool true), 5⟩] := by
  constructor <;> decide

theorem sorted_perm_unique :
    ∀ l1 l2 : List NodeEntry, l1.Perm l2 →
      l1.Pairwise (fun a b => a.line ≤ b.line) →
      l2.Pairwise (fun a b => a.line ≤ b.line) →
      (l1.map NodeEntry.line).Nodup → l1 = l2 := by
  intro l1
  induction l1 with
  | nil =>
    intro l2 hp _ _ _
    exact (hp.symm.eq_nil).symm
  | cons a t ih =>
    intro l2 hp hs1 hs2 hnd
    cases l2 with
    | nil => cases hp.eq_nil
    | cons b u =>
      rw [List.map_cons, List.nodup_cons] at hnd
      have hab : a = b := by
        rcases List.mem_cons.mp (hp.mem_iff.mpr (List.mem_cons_self b u)) with hba | hbt
        · exact hba.symm
        · rcases List.mem_cons.mp (hp.mem_iff.mp (List.mem_cons_self a t)) with heq | hau
          · exact heq
          · have h1 : a.line ≤ b.line := (List.pairwise_cons.mp hs1).1 b hbt
            have h2 : b.line ≤ a.line := (List.pairwise_cons.mp hs2).1 a hau
            have hlin : a.line = b.line := Nat.le_antisymm h1 h2
            have hmem : a.line ∈ t.map NodeEntry.line := by
              rw [hlin]
              exact List.mem_map_of_mem _ hbt
            exact absurd hmem hnd.1
      subst hab
      have hp' := hp.cons_inv
      have ht1 := (List.pairwise_cons.mp hs1).2
      have ht2 := (List.pairwise_cons.mp hs2).2
      rw [ih u hp' ht1 ht2 hnd.2]

/-- C4 (amended): every admissible output of `Render`'s sort is a permutation
of the node entries that is nondecreasing in line, and when all line numbers
are pairwise distinct this determines the output uniquely; the relative order
of entries with equal lines is not specified — `sort.Slice` is documented as
unstable — so ties need not preserve enumeration order. -/
theorem c4_render_sorts_by_line (nodes out1 out2 : List NodeEntry)
    (h1 : RenderOrder nodes out1) (h2 : RenderOrder nodes out2)
    (hdist : nodes.Pairwise (fun a b => a.line ≠ b.line)) :
    out1.Pairwise (fun a b => a.line ≤ b.line) ∧ nodes.Perm out1 ∧ out1 = out2 := by
  refine ⟨h1.2, h1.1, ?_⟩
  have hndnodes : (nodes.map NodeEntry.line).Nodup := List.pairwise_map.mpr hdist
  have hnd : (out1.map NodeEntry.line).Nodup :=
    ((h1.1.map NodeEntry.line).nodup_iff).mp hndnodes
  exact sorted_perm_unique out1 out2 (h1.1.symm.trans h2.1) h1.2 h2.2 hnd

/-- Witness for C4 (amended): two entries with distinct lines 2 and 1 admit
exactly the ascending order as render output. -/
theorem c4_render_sorts_by_line_witness :
    List.Pairwise (fun a b : NodeEntry => a.line ≤ b.line)
      [⟨['b'], ['b'], some (.goBool true), 1⟩, ⟨['a'], ['a'], some (.goBool true), 2⟩] ∧
    List.Perm
      ([⟨['a'], ['a'], some (.goBool true), 2⟩, ⟨['b'], ['b'], some (.goBool true), 1⟩] :
        List NodeEntry)
      [⟨['b'], ['b'], some (.goBool true), 1⟩, ⟨['a'], ['a'], some (.goBool true), 2⟩] ∧
    ([⟨['b'], ['b'], some (.goBool true), 1⟩, ⟨['a'], ['a'], some (.goBool true), 2⟩] :
        List NodeEntry) =
      [⟨['b'], ['b'], some (.goBool true), 1⟩, ⟨['a'], ['a'], some (.goBool true), 2⟩] :=
  c4_render_sorts_by_line
    [⟨['a'], ['a'], some (.goBool true), 2⟩, ⟨['b'], ['b'], some (.goBool true), 1⟩]
    [⟨['b'], ['b'], some (.goBool true), 1⟩, ⟨['a'], ['a'], some (.goBool true), 2⟩]
    [⟨['b'], ['b'], some (.goBool true), 1⟩, ⟨['a'], ['a'], some (.goBool true), 2⟩]
    (by decide) (by decide) (by decide)

end LibOpenAPI
